import Mathlib

/-!
# Formal model of the SpreadCoin masternode election core (`src/masternodes.cpp`)

This file gives a shallow embedding of the consensus-relevant functions of
`src/masternodes.cpp` and proves or refutes the frozen specification claims
about them.

Modelling conventions:
* `COutPoint` is an abstract identity carrying a total order (the C++ code only
  ever compares outpoints through `std::set`'s order and equality), so it is
  modelled as `Nat`.
* 256-bit hashes, key ids and signatures are opaque values, modelled as `Nat`.
  Hash functions (`CHashWriter`) are modelled as injective, i.e. equality of
  hashes is modelled as equality of the hashed data.
* C++ `double` arithmetic in `GetScore` is modelled as exact rational
  arithmetic (`ℚ`); `0.001` becomes division by `1000`.
* External collaborators (the block index `FindBlockByHeight`, the collateral
  check `getKeyIDAndAmount`, signature recovery, the monotonic clock) are
  modelled as components of an explicit environment `ChainEnv`.
* `boost::unordered_map<COutPoint, CMasterNode> g_MasterNodes` is modelled as
  an association list `Registry`; `std::set<COutPoint> g_ElectedMasternodes`
  is modelled as a strictly sorted `List Nat`.
-/

/-- Collateral outpoint identity (`COutPoint`): modelled as a natural number;
`std::set`'s total order on outpoints becomes the order on `Nat`. -/
abbrev OutPoint := Nat

/-- `CMasterNodeExistenceMsg`: a signed claim that a node was online at a block. -/
structure CMasterNodeExistenceMsg where
  outpoint : OutPoint
  nBlock : Int
  hashBlock : Nat
  signature : Nat
deriving DecidableEq

/-- `CReceivedExistenceMsg`: a received existence message plus the local
monotonic receive time (`nReceiveTime`, milliseconds). -/
structure CReceivedExistenceMsg where
  msg : CMasterNodeExistenceMsg
  nReceiveTime : Int
deriving DecidableEq

/-- `CMasterNode`: one collateral-backed node record.  The fields `my` and
`privkey` of the C++ struct are irrelevant to the modelled functions and the
score cache fields are not used by the modelled code, so they are omitted. -/
structure CMasterNode where
  outpoint : OutPoint
  keyid : Nat
  amount : Nat
  misbehaving : Bool := false
  existenceMsgs : List CReceivedExistenceMsg := []
deriving DecidableEq

/-- One block record of the external block index: its hash
(`CBlockIndex::GetBlockHash()`) and local receive time
(`CBlockIndex::nReceiveTime`, `0` when the block predates local monitoring). -/
structure BlockRec where
  hash : Nat
  nReceiveTime : Int
deriving DecidableEq

/-- The external environment of `masternodes.cpp`: chain state, hashing,
signature recovery, collateral validation and the monotonic clock.
* `chain h` models `FindBlockByHeight(h)`.
* `hash64 seedHash outpoint` models `CHashWriter << seedHash << outpoint`
  followed by `.GetHash().Get64(0)`.
* `sigHash o nBlock hashBlock` models `GetHashForSignature()`.
* `recoverId h sig` models `CPubKey::RecoverCompact(h, sig).GetID()`.
* `validate o` models `getKeyIDAndAmount(o, keyid, amount)` returning the
  key id and amount on success.
* `now` models `GetMontoneTimeMs()` at the time of the modelled call.
* `nBestHeight` and `g_InitialBlock` are the globals of the same names. -/
structure ChainEnv where
  nBestHeight : Int
  g_InitialBlock : Int
  chain : Int → BlockRec
  hash64 : Nat → OutPoint → Nat
  sigHash : OutPoint → Int → Nat → Nat
  recoverId : Nat → Nat → Nat
  validate : OutPoint → Option (Nat × Nat)
  now : Int

/-- `g_MasterNodes`, modelled as an association list from outpoint to record. -/
abbrev Registry := List (OutPoint × CMasterNode)

/-- Lookup in the registry (`g_MasterNodes.find`). -/
def regFind (reg : Registry) (o : OutPoint) : Option CMasterNode :=
  match reg with
  | [] => none
  | p :: rest => if p.1 = o then some p.2 else regFind rest o

/-- Store a record under key `o` (`g_MasterNodes[o] = mn`): replaces the first
binding of `o`, or appends a new binding when `o` is absent. -/
def regSet (reg : Registry) (o : OutPoint) (mn : CMasterNode) : Registry :=
  match reg with
  | [] => [(o, mn)]
  | p :: rest => if p.1 = o then (o, mn) :: rest else p :: regSet rest o mn

theorem regFind_regSet_self (reg : Registry) (o : OutPoint) (mn : CMasterNode) :
    regFind (regSet reg o mn) o = some mn := by
  induction reg with
  | nil => simp [regSet, regFind]
  | cons p rest ih =>
    by_cases h : p.1 = o
    · simp [regSet, h, regFind]
    · simp only [regSet, if_neg h]
      simpa [regFind, h] using ih

theorem regFind_regSet_ne (reg : Registry) (o o' : OutPoint) (mn : CMasterNode)
    (h : o' ≠ o) : regFind (regSet reg o mn) o' = regFind reg o' := by
  induction reg with
  | nil => simp [regSet, regFind, Ne.symm h]
  | cons p rest ih =>
    by_cases hp : p.1 = o
    · subst hp
      simp [regSet, regFind, Ne.symm h]
    · simp only [regSet, if_neg hp]
      by_cases hp' : p.1 = o'
      · simp [regFind, hp']
      · simpa [regFind, hp'] using ih

theorem regSet_eq_of_regFind (reg : Registry) (o : OutPoint) (mn : CMasterNode)
    (h : regFind reg o = some mn) : regSet reg o mn = reg := by
  induction reg with
  | nil => simp [regFind] at h
  | cons p rest ih =>
    by_cases hp : p.1 = o
    · simp only [regFind, if_pos hp] at h
      cases p with
      | mk a b =>
        simp only at hp
        subst hp
        simp only [Option.some.injEq] at h
        simp [regSet, h]
    · simp only [regFind, if_neg hp] at h
      simp only [regSet, if_neg hp]
      rw [ih h]

/-- `std::set<T>::insert` on a strictly sorted list: insert `o` keeping the
list sorted; if `o` is already present the list is unchanged. -/
def insertSorted (l : List Nat) (o : Nat) : List Nat :=
  match l with
  | [] => [o]
  | x :: xs =>
    if o < x then o :: x :: xs
    else if o = x then x :: xs
    else x :: insertSorted xs o

theorem mem_insertSorted (l : List Nat) (o x : Nat) :
    x ∈ insertSorted l o ↔ x ∈ l ∨ x = o := by
  induction l with
  | nil => simp [insertSorted]
  | cons a as ih =>
    by_cases h1 : o < a
    · simp [insertSorted, h1]; tauto
    · by_cases h2 : o = a
      · subst h2; simp [insertSorted, h1]; tauto
      · simp only [insertSorted, if_neg h1, if_neg h2, List.mem_cons, ih]
        tauto

theorem pairwise_insertSorted (l : List Nat) (o : Nat)
    (h : List.Pairwise (· < ·) l) :
    List.Pairwise (· < ·) (insertSorted l o) := by
  induction l with
  | nil => simp [insertSorted]
  | cons a as ih =>
    rcases List.pairwise_cons.mp h with ⟨ha, has⟩
    by_cases h1 : o < a
    · simp only [insertSorted, if_pos h1]
      refine List.pairwise_cons.mpr ⟨?_, h⟩
      intro x hx
      rcases List.mem_cons.mp hx with rfl | hx
      · exact h1
      · exact lt_trans h1 (ha x hx)
    · by_cases h2 : o = a
      · simpa [insertSorted, h1, h2] using h
      · have hao : a < o := by omega
        simp only [insertSorted, if_neg h1, if_neg h2]
        refine List.pairwise_cons.mpr ⟨?_, ih has⟩
        intro x hx
        rcases (mem_insertSorted as o x).mp hx with hx | rfl
        · exact ha x hx
        · exact hao

/-- `getMasterNode(outpoint)`: return the registered record, or validate the
collateral and create a fresh record (fields `outpoint`, `keyid`, `amount`;
everything else default) on success.  Returns the possibly-extended registry. -/
def getMasterNode (env : ChainEnv) (reg : Registry) (o : OutPoint) :
    Option CMasterNode × Registry :=
  match regFind reg o with
  | some mn => (some mn, reg)
  | none =>
    match env.validate o with
    | none => (none, reg)
    | some (k, a) =>
      let mn : CMasterNode := { outpoint := o, keyid := k, amount := a }
      (some mn, regSet reg o mn)

/-- An outpoint resolvable by `getMasterNode` now or at any later registry
state reachable through it: either already registered or validatable. -/
def canResolve (env : ChainEnv) (reg : Registry) (o : OutPoint) : Bool :=
  (regFind reg o).isSome || (env.validate o).isSome

theorem getMasterNode_isSome_iff (env : ChainEnv) (reg : Registry) (o : OutPoint) :
    (getMasterNode env reg o).1.isSome = canResolve env reg o := by
  unfold getMasterNode canResolve
  rcases h : regFind reg o with _ | mn
  · rcases hv : env.validate o with _ | ⟨k, a⟩ <;> simp [h, hv]
  · simp [h]

theorem regFind_getMasterNode_mono (env : ChainEnv) (reg : Registry) (o o' : OutPoint)
    (mn : CMasterNode) (h : regFind reg o' = some mn) :
    regFind (getMasterNode env reg o).2 o' = some mn := by
  unfold getMasterNode
  rcases hf : regFind reg o with _ | v
  · rcases hv : env.validate o with _ | ⟨k, a⟩
    · simpa using h
    · simp only
      have hne : o' ≠ o := by
        intro he; rw [he, hf] at h; exact Option.noConfusion h
      rw [regFind_regSet_ne _ _ _ _ hne]; exact h
  · simpa using h

theorem canResolve_getMasterNode (env : ChainEnv) (reg : Registry) (o o' : OutPoint) :
    canResolve env (getMasterNode env reg o).2 o' = canResolve env reg o' := by
  unfold getMasterNode
  rcases hf : regFind reg o with _ | v
  · rcases hv : env.validate o with _ | ⟨k, a⟩
    · simp
    · simp only [canResolve]
      by_cases hne : o' = o
      · subst hne
        simp [regFind_regSet_self, hf, hv]
      · rw [regFind_regSet_ne _ _ _ _ hne]
  · simp

/-- Global constants of `masternodes.cpp`. -/
def g_MasternodesStartPayments : Nat := 150

def g_MasternodesStopPayments : Nat := 100

def g_AnnounceExistenceRestartPeriod : Int := 20

def g_AnnounceExistencePeriod : Int := 5

def g_MonitoringPeriod : Int := 100

def g_MonitoringPeriodMin : Int := 30

def g_PenaltyTime : ℚ := 500

/-- One restart window of `CMasterNode::GetExistenceBlocks`: the inner loop
`for (j = nSeedBlock + Shift; j < nSeedBlock + 20; j += 5)`.  Since
`Shift = hash % 5 < 5`, the loop body runs exactly for
`j = nSeedBlock + Shift + 5*k`, `k = 0,1,2,3`; each `j` is kept when
`j <= nBestHeight && j > nCurHeight - 20`. -/
def existenceWindow (env : ChainEnv) (outpoint : OutPoint) (nCurHeight nSeedBlock : Int) :
    List Int :=
  let seedHash := (env.chain (nSeedBlock - g_AnnounceExistencePeriod)).hash
  let shift : Int := ((env.hash64 seedHash outpoint) % 5 : Nat)
  ((List.range 4).map (fun k => nSeedBlock + shift + 5 * (k : Int))).filter
    (fun j => decide (j ≤ env.nBestHeight) && decide (nCurHeight - g_AnnounceExistenceRestartPeriod < j))

/-- `CMasterNode::GetExistenceBlocks()`: the deterministic challenge heights of
a node, derived from the two most recent restart windows. -/
def GetExistenceBlocks (env : ChainEnv) (outpoint : OutPoint) : List Int :=
  if env.nBestHeight < 4 * g_AnnounceExistenceRestartPeriod then []
  else
    let nCurHeight := env.nBestHeight
    let nBlock := nCurHeight / g_AnnounceExistenceRestartPeriod * g_AnnounceExistenceRestartPeriod
    existenceWindow env outpoint nCurHeight (nBlock - g_AnnounceExistenceRestartPeriod) ++
      existenceWindow env outpoint nCurHeight nBlock

/-- `CMasterNode::Cleanup()`: the C++ calls `std::remove_if` on
`existenceMsgs` WITHOUT erasing the returned range, so the vector keeps its
size: surviving messages are compacted to the front and the positions from
`kept.length` on keep their previous contents (`remove_if` never writes past
the write head, and for this trivially-copyable payload the moved-from tail
entries retain their old values). -/
def Cleanup (nBestHeight : Int) (l : List CReceivedExistenceMsg) :
    List CReceivedExistenceMsg :=
  let kept := l.filter (fun r => !decide (r.msg.nBlock < nBestHeight - 2 * g_MonitoringPeriod))
  kept ++ l.drop kept.length

theorem length_Cleanup (nBestHeight : Int) (l : List CReceivedExistenceMsg) :
    (Cleanup nBestHeight l).length = l.length := by
  unfold Cleanup
  have hk : (l.filter (fun r => !decide (r.msg.nBlock < nBestHeight - 2 * g_MonitoringPeriod))).length ≤ l.length :=
    List.length_filter_le _ _
  simp only [List.length_append, List.length_drop]
  omega

theorem mem_of_mem_Cleanup (nBestHeight : Int) (l : List CReceivedExistenceMsg)
    (r : CReceivedExistenceMsg) (h : r ∈ Cleanup nBestHeight l) : r ∈ l := by
  unfold Cleanup at h
  rcases List.mem_append.mp h with h | h
  · exact List.mem_of_mem_filter h
  · exact List.mem_of_mem_drop h

/-- `CMasterNode::AddExistenceMsg(newMsg)`: deduplicate by message hash
(modelled as structural equality), run `Cleanup`, mark the node misbehaving
when it floods (more than `100/5*10 = 200` stored messages), otherwise append
the message stamped with the current monotonic time.  Returns the C++ return
code: `0` duplicate/no-op, `20` flooding penalty, `-1` accepted. -/
def AddExistenceMsg (env : ChainEnv) (mn : CMasterNode)
    (newMsg : CMasterNodeExistenceMsg) : Int × CMasterNode :=
  if mn.existenceMsgs.any (fun r => r.msg == newMsg) then (0, mn)
  else if 100 / 5 * 10 < (Cleanup env.nBestHeight mn.existenceMsgs).length then
    (20, { mn with
             existenceMsgs := Cleanup env.nBestHeight mn.existenceMsgs,
             misbehaving := true })
  else
    (-1, { mn with existenceMsgs :=
            Cleanup env.nBestHeight mn.existenceMsgs ++ [⟨newMsg, env.now⟩] })

/-- The per-challenge-block contribution to `CMasterNode::GetScore()`: the
first stored message matching the block's height and hash determines the
delay; no match contributes `g_PenaltyTime`; a match received before the block
(or a block with no recorded receive time) contributes `0`; a later match
contributes `(receive - block receive) * 0.001` seconds. -/
def timeDeltaFor (env : ChainEnv) (mn : CMasterNode) (h : Int) : ℚ :=
  let b := env.chain h
  match mn.existenceMsgs.find? (fun r => decide (r.msg.nBlock = h) && decide (r.msg.hashBlock = b.hash)) with
  | none => g_PenaltyTime
  | some r =>
    if b.nReceiveTime = 0 ∨ r.nReceiveTime < b.nReceiveTime then 0
    else ((r.nReceiveTime - b.nReceiveTime : Int) : ℚ) / 1000

/-- `CMasterNode::GetScore()`: `99999999999.0` for a misbehaving node,
otherwise the mean delay over the challenge blocks above `g_InitialBlock`
(`0` when there is no qualifying challenge block). -/
def GetScore (env : ChainEnv) (mn : CMasterNode) : ℚ :=
  if mn.misbehaving then 99999999999
  else
    let vblocks := (GetExistenceBlocks env mn.outpoint).filter
      (fun h => !decide (h ≤ env.g_InitialBlock))
    if vblocks.length = 0 then 0
    else ((vblocks.map (timeDeltaFor env mn)).sum) / (vblocks.length : ℚ)

/-- `MN_ProcessExistenceMsg_Impl(mnem)`: staleness checks, registry
lookup/creation, signature verification, then `AddExistenceMsg`.  Returns the
C++ return code (`20`/`100` penalties, `0` ignore, `-1` accept-and-relay) and
the updated registry. -/
def MN_ProcessExistenceMsg_Impl (env : ChainEnv) (reg : Registry)
    (mnem : CMasterNodeExistenceMsg) : Int × Registry :=
  if mnem.nBlock < env.nBestHeight - 100 then (20, reg)
  else if mnem.nBlock < env.nBestHeight - 50 then (0, reg)
  else
    let gm := getMasterNode env reg mnem.outpoint
    match gm.1 with
    | none => (20, gm.2)
    | some pmn =>
      if env.recoverId (env.sigHash mnem.outpoint mnem.nBlock mnem.hashBlock) mnem.signature ≠ pmn.keyid
      then (100, gm.2)
      else
        let am := AddExistenceMsg env pmn mnem
        (am.1, regSet gm.2 mnem.outpoint am.2)

/-- The caller-visible outcome of `MN_ProcessExistenceMsg`: the peer penalty
applied (`pfrom->Misbehaving(misbehave)` when the return code is positive) and
whether the message is relayed (exactly when the return code is negative). -/
def penaltyOf (r : Int) : Int := if 0 < r then r else 0

def relayedOf (r : Int) : Bool := decide (r < 0)

/-- `MN_Elect(outpoint, elect)`: for `elect = true`, fail unless the outpoint
resolves via `getMasterNode`, then `g_ElectedMasternodes.insert(outpoint).second`;
for `elect = false`, `g_ElectedMasternodes.erase(outpoint) != 0`.  Returns
whether the elected set changed, plus the new registry and elected set. -/
def MN_Elect (env : ChainEnv) (reg : Registry) (elected : List OutPoint)
    (o : OutPoint) (elect : Bool) : Bool × Registry × List OutPoint :=
  if elect then
    let gm := getMasterNode env reg o
    match gm.1 with
    | none => (false, gm.2, elected)
    | some _ =>
      if o ∈ elected then (false, gm.2, elected)
      else (true, gm.2, insertSorted elected o)
  else
    if o ∈ elected then (true, reg, elected.erase o)
    else (false, reg, elected)

/-- The per-direction election loop of `MN_OnConnectBlock`: apply
`MN_Elect(o, elect)` to each winning outpoint in turn and record, in order,
those outpoints for which the elected set actually changed
(`pindex->velected[j]`). -/
def applyVotes (env : ChainEnv) (elect : Bool) :
    Registry → List OutPoint → List OutPoint → Registry × List OutPoint × List OutPoint
  | reg, elected, [] => (reg, elected, [])
  | reg, elected, o :: os =>
    let e := MN_Elect env reg elected o elect
    let rest := applyVotes env elect e.2.1 e.2.2 os
    (rest.1, rest.2.1, if e.1 then o :: rest.2.2 else rest.2.2)

/-- The per-direction undo loop of `MN_OnDisconnectBlock`: apply the inverse
direction to every recorded flip and conjoin the `assert(MN_Elect(...))`
results. -/
def undoVotes (env : ChainEnv) (elect : Bool) :
    Registry → List OutPoint → List OutPoint → Bool × Registry × List OutPoint
  | reg, elected, [] => (true, reg, elected)
  | reg, elected, o :: os =>
    let e := MN_Elect env reg elected o elect
    let rest := undoVotes env elect e.2.1 e.2.2 os
    (e.1 && rest.1, rest.2.1, rest.2.2)

/-- Total vote count of an outpoint over a trailing window of per-block vote
vectors (each occurrence in each block's vector counts once). -/
def voteCount (window : List (List OutPoint)) (o : OutPoint) : Nat :=
  (window.map (fun l => l.count o)).sum

/-- Canonical sorted duplicate-free listing of a vote multiset's support. -/
def sortOutpoints (l : List OutPoint) : List OutPoint :=
  l.foldl insertSorted []

/-- The binding decisions of one direction in `MN_OnConnectBlock`: the
outpoints whose accumulated vote count over the trailing
`g_MasternodesElectionPeriod`-block window exceeds half the window length.
The C++ iterates a `boost::unordered_map` in unspecified order; the model
fixes the sorted order of the (distinct) keys. -/
def electionWinners (window : List (List OutPoint)) (period : Nat) : List OutPoint :=
  (sortOutpoints (window.flatten)).filter (fun o => decide (period / 2 < voteCount window o))

/-- A block's embedded ballot: `pindex->vvotes[0]` (remove votes) and
`pindex->vvotes[1]` (add votes). -/
structure BlockVotes where
  votes0 : List OutPoint
  votes1 : List OutPoint

/-- The election part of `MN_OnConnectBlock(pindex)`: tally the trailing
window of ballots, apply direction `0` (de-elect) then direction `1` (elect),
recording the flips that changed state as `pindex->velected[0]`/`[1]`.
The payee-selection tail of the C++ function touches neither the elected set
nor the flip records and is modelled separately (`MN_NextPayee`). -/
def MN_OnConnectBlock (env : ChainEnv) (period : Nat) (reg : Registry)
    (elected : List OutPoint) (window : List BlockVotes) :
    Registry × List OutPoint × List OutPoint × List OutPoint :=
  let w0 := electionWinners (window.map (·.votes0)) period
  let w1 := electionWinners (window.map (·.votes1)) period
  let a0 := applyVotes env false reg elected w0
  let a1 := applyVotes env true a0.1 a0.2.1 w1
  (a1.1, a1.2.1, a0.2.2, a1.2.2)

/-- `MN_OnDisconnectBlock(pindex)`: for every recorded flip apply the inverse
direction (`!j`), asserting success; direction `0` flips are re-elected,
direction `1` flips are de-elected.  The first component collects the
`assert(MN_Elect(outpoint, !j))` outcomes. -/
def MN_OnDisconnectBlock (env : ChainEnv) (reg : Registry)
    (elected : List OutPoint) (velected0 velected1 : List OutPoint) :
    Bool × Registry × List OutPoint :=
  let u0 := undoVotes env true reg elected velected0
  let u1 := undoVotes env false u0.2.1 u0.2.2 velected1
  (u0.1 && u1.1, u1.2.1, u1.2.2)

/-- `MN_NextPayee(PrevPayee)` (modelled to return the chosen record):
with a null previous payee, pay the first elected outpoint once the roster
reaches `g_MasternodesStartPayments`; otherwise find
`g_ElectedMasternodes.upper_bound(PrevPayee)`, rewinding to `begin()` at the
end, provided the roster has at least `g_MasternodesStopPayments` members.
`elected` is the sorted listing of `g_ElectedMasternodes`. -/
def MN_NextPayee (env : ChainEnv) (reg : Registry) (elected : List OutPoint)
    (prevPayee : Option OutPoint) : Option CMasterNode × Registry :=
  match prevPayee with
  | none =>
    if elected.length < g_MasternodesStartPayments then (none, reg)
    else
      match elected.head? with
      | none => (none, reg)
      | some o => getMasterNode env reg o
  | some prev =>
    if elected.length < g_MasternodesStopPayments then (none, reg)
    else
      match elected.find? (fun x => decide (prev < x)) with
      | some o => getMasterNode env reg o
      | none =>
        match elected.head? with
        | none => (none, reg)
        | some o => getMasterNode env reg o

/-- `set_differences(A, B, resultA, resultB)`: simultaneous ordered walk of two
sorted sets, appending elements only in `A` to `resultA` and elements only in
`B` to `resultB`. -/
def set_differences : List OutPoint → List OutPoint → List OutPoint × List OutPoint
  | [], bs => ([], bs)
  | as, [] => (as, [])
  | a :: as, b :: bs =>
    if a < b then
      let r := set_differences as (b :: bs)
      (a :: r.1, r.2)
    else if b < a then
      let r := set_differences (a :: as) bs
      (r.1, b :: r.2)
    else
      set_differences as bs

/-- C `round` on the nonnegative exact quotient `a / b`: rounds to nearest,
halves away from zero, i.e. `⌊a/b + 1/2⌋`.  The C++ computes
`round(double(a)*m/t)`; the model uses the exact rational value. -/
def roundDiv (a b : Nat) : Nat := (2 * a + b) / (2 * b)

/-- `boost::algorithm::clamp(v, lo, hi)`. -/
def clampNat (v lo hi : Nat) : Nat := if v < lo then lo else if hi < v then hi else v

/-- `std::vector::resize(n)` on a vector of outpoints: truncate to `n` or pad
with default-constructed (null) outpoints up to `n`. -/
def resizeVec (l : List OutPoint) (n : Nat) : List OutPoint :=
  l.take n ++ List.replicate (n - l.length) 0

theorem length_resizeVec (l : List OutPoint) (n : Nat) :
    (resizeVec l n).length = n := by
  unfold resizeVec
  simp only [List.length_append, List.length_take, List.length_replicate]
  omega

/-- The `numVotes0` computation of `MN_CastVotes`: direction `0`'s share of
the vote budget — `0`/`budget` when one list is empty, otherwise the rounded
proportional share clamped to `[1, budget - 1]`. -/
def numVotes0 (budget : Nat) (v0 v1 : List OutPoint) : Nat :=
  if v0.isEmpty then 0
  else if v1.isEmpty then budget
  else clampNat (roundDiv (v0.length * budget) (v0.length + v1.length)) 1 (budget - 1)

/-- The vote-budget apportionment tail of `MN_CastVotes`: when the two vote
lists together exceed `g_MaxMasternodeVotes` (the `budget` parameter), give
direction `0` its share `numVotes0` and resize both lists accordingly. -/
def apportionVotes (budget : Nat) (v0 v1 : List OutPoint) :
    List OutPoint × List OutPoint :=
  if budget < v0.length + v1.length then
    (resizeVec v0 (numVotes0 budget v0 v1),
     resizeVec v1 (budget - numVotes0 budget v0 v1))
  else (v0, v1)

/-- `MN_CastVotes(vvotes)`: below `g_InitialBlock + g_MonitoringPeriodMin`
clear both vote lists; otherwise diff the elected set against the local
candidate set and apportion the vote budget.  NOTE: the candidate set
`NewMasternodes` is left empty in the source (marked `// FIXME:`), so the
diff is taken against the empty set.  `budget` is the external constant
`g_MaxMasternodeVotes`. -/
def MN_CastVotes (env : ChainEnv) (budget : Nat) (elected : List OutPoint) :
    List OutPoint × List OutPoint :=
  if env.nBestHeight < env.g_InitialBlock + g_MonitoringPeriodMin then ([], [])
  else
    let newMasternodes : List OutPoint := []
    let d := set_differences elected newMasternodes
    apportionVotes budget d.1 d.2

theorem set_differences_nil_right (as : List OutPoint) :
    set_differences as [] = (as, []) := by
  cases as <;> simp [set_differences]

/-- A simple concrete environment for witnesses: every block hashes to `0`
and was received at time `1`, the node-schedule hash is always `0`, no
collateral validates. -/
def wEnv : ChainEnv where
  nBestHeight := 100
  g_InitialBlock := 0
  chain := fun _ => ⟨0, 1⟩
  hash64 := fun _ _ => 0
  sigHash := fun o n h => o + n.natAbs + h
  recoverId := fun h _ => h
  validate := fun _ => none
  now := 7

/-- C10: with the best height below `g_InitialBlock + g_MonitoringPeriodMin`
(30 blocks), `MN_CastVotes` clears both vote lists and returns them empty,
whatever the elected set. -/
theorem C10_cast_votes_empty_below_min_monitoring (env : ChainEnv) (budget : Nat)
    (elected : List OutPoint)
    (h : env.nBestHeight < env.g_InitialBlock + g_MonitoringPeriodMin) :
    MN_CastVotes env budget elected = ([], []) := by
  simp [MN_CastVotes, h]

theorem C10_cast_votes_empty_below_min_monitoring_witness :
    { wEnv with nBestHeight := 10 }.nBestHeight <
      { wEnv with nBestHeight := 10 }.g_InitialBlock + g_MonitoringPeriodMin ∧
    MN_CastVotes { wEnv with nBestHeight := 10 } 7 [3, 5] = ([], []) :=
  ⟨by decide,
   C10_cast_votes_empty_below_min_monitoring { wEnv with nBestHeight := 10 } 7 [3, 5]
     (by decide)⟩

/-- C6: a proof for `current_height - 60` is always ignored (return code `0`,
no penalty, no relay, registry untouched) for any best height ≥ 60, and a
proof older than `current_height - 100` always yields the `Penalize(20)`
return code with the registry untouched. -/
theorem C6_stale_window_outcomes (env : ChainEnv) (reg : Registry)
    (m : CMasterNodeExistenceMsg) :
    (60 ≤ env.nBestHeight → m.nBlock = env.nBestHeight - 60 →
      MN_ProcessExistenceMsg_Impl env reg m = (0, reg) ∧
      penaltyOf (MN_ProcessExistenceMsg_Impl env reg m).1 = 0 ∧
      relayedOf (MN_ProcessExistenceMsg_Impl env reg m).1 = false) ∧
    (m.nBlock < env.nBestHeight - 100 →
      MN_ProcessExistenceMsg_Impl env reg m = (20, reg) ∧
      penaltyOf (MN_ProcessExistenceMsg_Impl env reg m).1 = 20) := by
  constructor
  · intro _ h2
    have hx : ¬ (m.nBlock < env.nBestHeight - 100) := by omega
    have hy : m.nBlock < env.nBestHeight - 50 := by omega
    refine ⟨?_, ?_, ?_⟩ <;>
      simp [MN_ProcessExistenceMsg_Impl, hx, hy, penaltyOf, relayedOf]
  · intro h1
    exact ⟨by simp [MN_ProcessExistenceMsg_Impl, h1], by
      simp [MN_ProcessExistenceMsg_Impl, h1, penaltyOf]⟩

theorem C6_stale_window_outcomes_witness :
    MN_ProcessExistenceMsg_Impl wEnv [] ⟨1, 40, 0, 0⟩ = (0, []) ∧
    MN_ProcessExistenceMsg_Impl wEnv [] ⟨1, -10, 0, 0⟩ = (20, []) :=
  ⟨((C6_stale_window_outcomes wEnv [] ⟨1, 40, 0, 0⟩).1 (by decide) (by decide)).1,
   ((C6_stale_window_outcomes wEnv [] ⟨1, -10, 0, 0⟩).2 (by decide)).1⟩

/-- C1 (code bug): the local candidate set `NewMasternodes` of `MN_CastVotes`
is left empty in the source (`// FIXME:`), so once voting is enabled the votes
are always the diff of the elected set against the EMPTY set: every elected
outpoint becomes a remove-vote and the add-vote list is always empty — the
registry, scores and misbehaving flags are never consulted. -/
theorem C1_cast_votes_diffs_against_empty_set (env : ChainEnv) (budget : Nat)
    (elected : List OutPoint)
    (h : env.g_InitialBlock + g_MonitoringPeriodMin ≤ env.nBestHeight) :
    MN_CastVotes env budget elected = apportionVotes budget elected [] := by
  have hn : ¬ (env.nBestHeight < env.g_InitialBlock + g_MonitoringPeriodMin) := by omega
  simp only [MN_CastVotes, if_neg hn, set_differences_nil_right]

theorem C1_cast_votes_diffs_against_empty_set_witness :
    MN_CastVotes wEnv 10 [5] = apportionVotes 10 [5] [] ∧
    apportionVotes 10 [5] [] = ([5], []) :=
  ⟨C1_cast_votes_diffs_against_empty_set wEnv 10 [5] (by decide), by decide⟩

/-- C8 (code bug): `Cleanup` uses `std::remove_if` without erasing, so the
message vector never shrinks.  Concretely: a record holding one proof for
block `50`, with best height `300`, accepts a fresh proof for block `260`
(return `-1`) while the stale proof — `50 < 300 - 200` — is still in the
stored list afterwards, contradicting the documented pruning. -/
theorem C8_stale_proof_survives_accept :
    (AddExistenceMsg { wEnv with nBestHeight := 300 }
        ⟨1, 9, 4, false, [⟨⟨1, 50, 0, 0⟩, 5⟩]⟩ ⟨1, 260, 0, 0⟩).1 = -1 ∧
    (⟨⟨1, 50, 0, 0⟩, 5⟩ : CReceivedExistenceMsg) ∈
      (AddExistenceMsg { wEnv with nBestHeight := 300 }
        ⟨1, 9, 4, false, [⟨⟨1, 50, 0, 0⟩, 5⟩]⟩ ⟨1, 260, 0, 0⟩).2.existenceMsgs ∧
    (50 : Int) < (300 : Int) - 2 * g_MonitoringPeriod := by decide

theorem resizeVec_eq_take (l : List OutPoint) (n : Nat) (h : n ≤ l.length) :
    resizeVec l n = l.take n := by
  unfold resizeVec
  have hz : n - l.length = 0 := by omega
  simp [hz]

theorem numVotes0_le_budget (budget : Nat) (v0 v1 : List OutPoint)
    (hb : 2 ≤ budget) : numVotes0 budget v0 v1 ≤ budget := by
  unfold numVotes0 clampNat
  split_ifs <;> omega

theorem numVotes0_le_len0 (budget : Nat) (v0 v1 : List OutPoint)
    (hb : 2 ≤ budget) (ht : budget < v0.length + v1.length) :
    numVotes0 budget v0 v1 ≤ v0.length := by
  unfold numVotes0
  by_cases h0 : v0.isEmpty
  · simp [h0]
  · by_cases h1 : v1.isEmpty
    · have : v1.length = 0 := by simpa [List.isEmpty_iff, List.length_eq_zero] using h1
      simp [h0, h1]; omega
    · have hl0 : 1 ≤ v0.length := by
        rcases v0 with _ | _ <;> simp_all [List.isEmpty]
      have hrd : roundDiv (v0.length * budget) (v0.length + v1.length) ≤ v0.length := by
        unfold roundDiv
        have hpos : 0 < 2 * (v0.length + v1.length) := by omega
        rw [← Nat.lt_succ_iff, Nat.div_lt_iff_lt_mul hpos]
        nlinarith [hl0, ht]
      simp only [h0, h1, if_false]
      unfold clampNat
      split_ifs <;> omega

theorem budget_le_len1_add_numVotes0 (budget : Nat) (v0 v1 : List OutPoint)
    (hb : 2 ≤ budget) (ht : budget < v0.length + v1.length) :
    budget ≤ v1.length + numVotes0 budget v0 v1 := by
  unfold numVotes0
  by_cases h0 : v0.isEmpty
  · have : v0.length = 0 := by simpa [List.isEmpty_iff, List.length_eq_zero] using h0
    simp [h0]; omega
  · by_cases h1 : v1.isEmpty
    · simp [h0, h1]
    · have hl0 : 1 ≤ v0.length := by
        rcases v0 with _ | _ <;> simp_all [List.isEmpty]
      have hl1 : 1 ≤ v1.length := by
        rcases v1 with _ | _ <;> simp_all [List.isEmpty]
      simp only [h0, h1, Bool.false_eq_true, if_false]
      by_cases hbl : budget ≤ v1.length
      · unfold clampNat
        split_ifs <;> omega
      · have hlb : v1.length < budget := by omega
        have hrd : budget - v1.length ≤ roundDiv (v0.length * budget) (v0.length + v1.length) := by
          unfold roundDiv
          have hpos : 0 < 2 * (v0.length + v1.length) := by omega
          rw [Nat.le_div_iff_mul_le hpos]
          zify [hlb.le]
          nlinarith [hl0, hl1, ht, hlb]
        unfold clampNat
        split_ifs <;> omega

theorem numVotes0_pos (budget : Nat) (v0 v1 : List OutPoint)
    (hb : 2 ≤ budget) (h0 : v0 ≠ []) (h1 : v1 ≠ []) :
    1 ≤ numVotes0 budget v0 v1 ∧ numVotes0 budget v0 v1 ≤ budget - 1 := by
  unfold numVotes0
  have h0' : v0.isEmpty = false := by simpa [List.isEmpty_iff] using h0
  have h1' : v1.isEmpty = false := by simpa [List.isEmpty_iff] using h1
  simp only [h0', h1', Bool.false_eq_true, if_false]
  unfold clampNat
  split_ifs <;> omega

/-- C3: when the two vote lists of `MN_CastVotes` together exceed the vote
budget (`g_MaxMasternodeVotes`, assumed ≥ 2), the apportionment truncates each
list to a prefix, the truncated sizes sum to exactly the budget, and no
non-empty list is reduced to zero while the other is also non-empty. -/
theorem C3_apportionment_sums_to_budget (budget : Nat) (v0 v1 : List OutPoint)
    (hb : 2 ≤ budget) (ht : budget < v0.length + v1.length) :
    (apportionVotes budget v0 v1).1.length + (apportionVotes budget v0 v1).2.length = budget ∧
    (apportionVotes budget v0 v1).1 = v0.take (apportionVotes budget v0 v1).1.length ∧
    (apportionVotes budget v0 v1).2 = v1.take (apportionVotes budget v0 v1).2.length ∧
    (v0 ≠ [] → v1 ≠ [] →
      (apportionVotes budget v0 v1).1 ≠ [] ∧ (apportionVotes budget v0 v1).2 ≠ []) := by
  have hle := numVotes0_le_budget budget v0 v1 hb
  have hl0 := numVotes0_le_len0 budget v0 v1 hb ht
  have hl1 := budget_le_len1_add_numVotes0 budget v0 v1 hb ht
  simp only [apportionVotes, if_pos ht]
  refine ⟨?_, ?_, ?_, ?_⟩
  · simp only [length_resizeVec]; omega
  · rw [length_resizeVec]; exact resizeVec_eq_take _ _ hl0
  · rw [length_resizeVec]; exact resizeVec_eq_take _ _ (by omega)
  · intro h0 h1
    have hp := numVotes0_pos budget v0 v1 hb h0 h1
    constructor
    · have : (resizeVec v0 (numVotes0 budget v0 v1)).length ≠ 0 := by
        rw [length_resizeVec]; omega
      intro he; exact this (by rw [he]; rfl)
    · have : (resizeVec v1 (budget - numVotes0 budget v0 v1)).length ≠ 0 := by
        rw [length_resizeVec]; omega
      intro he; exact this (by rw [he]; rfl)

theorem C3_apportionment_sums_to_budget_witness :
    (apportionVotes 2 [1] [2, 3]).1.length + (apportionVotes 2 [1] [2, 3]).2.length = 2 ∧
    (apportionVotes 2 [1] [2, 3]).1 = [1].take (apportionVotes 2 [1] [2, 3]).1.length ∧
    (apportionVotes 2 [1] [2, 3]).2 = [2, 3].take (apportionVotes 2 [1] [2, 3]).2.length ∧
    (([1] : List OutPoint) ≠ [] → ([2, 3] : List OutPoint) ≠ [] →
      (apportionVotes 2 [1] [2, 3]).1 ≠ [] ∧ (apportionVotes 2 [1] [2, 3]).2 ≠ []) :=
  C3_apportionment_sums_to_budget 2 [1] [2, 3] (by decide) (by decide)

/-- In a list whose receive times are weakly increasing (messages are appended
with a monotone clock), the first entry satisfying a predicate is received no
later than any given entry satisfying it. -/
theorem find?_receiveTime_le (l : List CReceivedExistenceMsg)
    (p : CReceivedExistenceMsg → Bool)
    (hsort : List.Pairwise (fun a b => a.nReceiveTime ≤ b.nReceiveTime) l)
    (r : CReceivedExistenceMsg) (hr : r ∈ l) (hp : p r = true) :
    ∃ r0, l.find? p = some r0 ∧ r0.nReceiveTime ≤ r.nReceiveTime := by
  induction l with
  | nil => cases hr
  | cons a as ih =>
    rcases List.pairwise_cons.mp hsort with ⟨ha, has⟩
    by_cases hpa : p a = true
    · refine ⟨a, List.find?_cons_of_pos _ hpa, ?_⟩
      rcases List.mem_cons.mp hr with rfl | hr
      · exact le_refl _
      · exact ha r hr
    · have hpa' : p a = false := by simpa using hpa
      have hr' : r ∈ as := by
        rcases List.mem_cons.mp hr with rfl | h
        · exact absurd hp hpa
        · exact h
      rcases ih has hr' with ⟨r0, hfind, hle⟩
      exact ⟨r0, by rw [List.find?_cons_of_neg _ hpa]; exact hfind, hle⟩

/-- C5: a non-misbehaving node whose message list is in receive order and
which, for every challenge height above `g_InitialBlock`, holds a proof
matching that block's height and hash received at or before the block itself,
scores exactly `0`. -/
theorem C5_perfect_node_scores_zero (env : ChainEnv) (mn : CMasterNode)
    (hmb : mn.misbehaving = false)
    (hsort : List.Pairwise (fun a b => a.nReceiveTime ≤ b.nReceiveTime) mn.existenceMsgs)
    (hproof : ∀ h ∈ GetExistenceBlocks env mn.outpoint, env.g_InitialBlock < h →
      ∃ r ∈ mn.existenceMsgs, r.msg.nBlock = h ∧ r.msg.hashBlock = (env.chain h).hash ∧
        r.nReceiveTime ≤ (env.chain h).nReceiveTime) :
    GetScore env mn = 0 := by
  unfold GetScore
  rw [if_neg (by simp [hmb])]
  simp only
  set vb := (GetExistenceBlocks env mn.outpoint).filter
    (fun h => !decide (h ≤ env.g_InitialBlock)) with hvb
  by_cases hlen : vb.length = 0
  · simp [hlen]
  · rw [if_neg hlen]
    have hall : ∀ h ∈ vb, timeDeltaFor env mn h = 0 := by
      intro h hmem
      have hgt : env.g_InitialBlock < h := by
        have := List.of_mem_filter hmem
        simpa using this
      have hgeb : h ∈ GetExistenceBlocks env mn.outpoint := List.mem_of_mem_filter hmem
      rcases hproof h hgeb hgt with ⟨r, hrmem, h1, h2, h3⟩
      unfold timeDeltaFor
      simp only
      have hp : (fun q => decide (q.msg.nBlock = h) &&
          decide (q.msg.hashBlock = (env.chain h).hash)) r = true := by
        simp [h1, h2]
      rcases find?_receiveTime_le _ (fun q => decide (q.msg.nBlock = h) &&
        decide (q.msg.hashBlock = (env.chain h).hash)) hsort r hrmem hp with ⟨r0, hfind, hle⟩
      rw [hfind]
      have hle0 : r0.nReceiveTime ≤ (env.chain h).nReceiveTime := le_trans hle h3
      by_cases hz : (env.chain h).nReceiveTime = 0
      · simp [hz]
      · by_cases hlt : r0.nReceiveTime < (env.chain h).nReceiveTime
        · simp [hz, hlt]
        · have heq : r0.nReceiveTime = (env.chain h).nReceiveTime :=
            le_antisymm hle0 (not_lt.mp hlt)
          simp [hz, hlt, heq]
    have hsum : (vb.map (timeDeltaFor env mn)).sum = 0 := by
      apply List.sum_eq_zero
      intro x hx
      rcases List.mem_map.mp hx with ⟨h, hh, rfl⟩
      exact hall h hh
    rw [hsum]
    simp

/-- The concrete node used in the C5 witness: a proof received at time `1`
(the block receive time in `wEnv`) for each of the four challenge heights
`85, 90, 95, 100` of outpoint `1` under `wEnv`. -/
def mnC5w : CMasterNode :=
  ⟨1, 0, 0, false,
    [⟨⟨1, 85, 0, 0⟩, 1⟩, ⟨⟨1, 90, 0, 0⟩, 1⟩, ⟨⟨1, 95, 0, 0⟩, 1⟩, ⟨⟨1, 100, 0, 0⟩, 1⟩]⟩

theorem C5_perfect_node_scores_zero_witness : GetScore wEnv mnC5w = 0 :=
  C5_perfect_node_scores_zero wEnv mnC5w (by decide) (by decide)
    (by decide)

/-- Environment for the C4 counterexample: `wEnv` with monitoring started at
height `95`, so only challenge height `100` qualifies for scoring. -/
def envC4 : ChainEnv := { wEnv with g_InitialBlock := 95 }

/-- A non-misbehaving node whose single matching proof was received
`10^17` ms after its block: its mean delay is `10^14` seconds. -/
def mnC4huge : CMasterNode :=
  ⟨1, 0, 0, false, [⟨⟨1, 100, 0, 0⟩, 100000000000000001⟩]⟩

/-- A misbehaving node (scores the `99999999999` sentinel). -/
def mnC4mis : CMasterNode := ⟨2, 0, 0, true, []⟩

/-- C4 counterexample: the claim "a misbehaving node's score is strictly
greater than any non-misbehaving node's score, whatever its proof history"
fails: a proof received ~3 million years after its block pushes an honest
node's mean delay (`10^14` s) above the misbehaving sentinel `99999999999`. -/
theorem C4_sentinel_not_greater_counterexample :
    mnC4mis.misbehaving = true ∧ mnC4huge.misbehaving = false ∧
    GetScore envC4 mnC4huge = 100000000000000 ∧
    GetScore envC4 mnC4mis = 99999999999 ∧
    ¬ (GetScore envC4 mnC4mis > GetScore envC4 mnC4huge) := by
  have hmis : GetScore envC4 mnC4mis = 99999999999 := by simp [GetScore, mnC4mis]
  have hblocks : (GetExistenceBlocks envC4 mnC4huge.outpoint).filter
      (fun h => !decide (h ≤ envC4.g_InitialBlock)) = [100] := by decide
  have hdelta : timeDeltaFor envC4 mnC4huge 100 =
      ((100000000000000000 : Int) : ℚ) / 1000 := by
    have hfind : mnC4huge.existenceMsgs.find? (fun q => decide (q.msg.nBlock = 100) &&
        decide (q.msg.hashBlock = (envC4.chain 100).hash)) =
        some ⟨⟨1, 100, 0, 0⟩, 100000000000000001⟩ := by decide
    simp only [timeDeltaFor, hfind]
    norm_num [envC4, wEnv]
  have hhuge : GetScore envC4 mnC4huge = 100000000000000 := by
    unfold GetScore
    rw [if_neg (by decide)]
    simp only [hblocks]
    norm_num [hdelta]
  refine ⟨rfl, rfl, hhuge, hmis, ?_⟩
  rw [hmis, hhuge]
  norm_num

/-- Each per-challenge-block delay contribution is at most `g_PenaltyTime`
when every stored proof was received within `g_PenaltyTime` seconds
(`500 * 1000` ms) of its own block. -/
theorem timeDeltaFor_le_penalty (env : ChainEnv) (mn : CMasterNode) (h : Int)
    (hdelay : ∀ r ∈ mn.existenceMsgs,
      r.nReceiveTime - (env.chain r.msg.nBlock).nReceiveTime ≤ 500 * 1000) :
    timeDeltaFor env mn h ≤ g_PenaltyTime := by
  rcases hfind : mn.existenceMsgs.find? (fun q => decide (q.msg.nBlock = h) &&
      decide (q.msg.hashBlock = (env.chain h).hash)) with _ | r
  · simp only [timeDeltaFor, hfind]
    exact le_refl _
  · have hrmem := List.mem_of_find?_eq_some hfind
    have hrp := List.find?_some hfind
    have hblk : r.msg.nBlock = h := by
      simp only [Bool.and_eq_true, decide_eq_true_eq] at hrp
      exact hrp.1
    simp only [timeDeltaFor, hfind]
    by_cases hc : (env.chain h).nReceiveTime = 0 ∨ r.nReceiveTime < (env.chain h).nReceiveTime
    · rw [if_pos hc]
      unfold g_PenaltyTime
      norm_num
    · rw [if_neg hc]
      have hd := hdelay r hrmem
      rw [hblk] at hd
      have hcast : ((r.nReceiveTime - (env.chain h).nReceiveTime : Int) : ℚ) ≤ 500000 := by
        exact_mod_cast hd
      unfold g_PenaltyTime
      rw [div_le_iff₀ (by norm_num : (0:ℚ) < 1000)]
      linarith

/-- C4 amended: a misbehaving node scores strictly worse (greater) than any
non-misbehaving node, provided each of the latter's stored proofs was received
at most `g_PenaltyTime` seconds (`500 * 1000` ms) after its own block — in
particular the honest mean delay then stays at most `500`, below the
`99999999999` sentinel. -/
theorem C4_sentinel_greater_amended (env : ChainEnv) (mnM mnG : CMasterNode)
    (hM : mnM.misbehaving = true) (hG : mnG.misbehaving = false)
    (hdelay : ∀ r ∈ mnG.existenceMsgs,
      r.nReceiveTime - (env.chain r.msg.nBlock).nReceiveTime ≤ 500 * 1000) :
    GetScore env mnG < GetScore env mnM := by
  have hMs : GetScore env mnM = 99999999999 := by simp [GetScore, hM]
  have hGs : GetScore env mnG ≤ 500 := by
    unfold GetScore
    rw [if_neg (by simp [hG])]
    simp only
    set vb := (GetExistenceBlocks env mnG.outpoint).filter
      (fun h => !decide (h ≤ env.g_InitialBlock)) with hvb
    by_cases hlen : vb.length = 0
    · simp [hlen]
    · rw [if_neg hlen]
      have hbound : (vb.map (timeDeltaFor env mnG)).sum ≤ (vb.length : ℚ) * 500 := by
        have := List.sum_le_card_nsmul (vb.map (timeDeltaFor env mnG)) (500 : ℚ) ?_
        · simpa [nsmul_eq_mul, List.length_map] using this
        · intro x hx
          rcases List.mem_map.mp hx with ⟨h, _, rfl⟩
          simpa [g_PenaltyTime] using timeDeltaFor_le_penalty env mnG h hdelay
      have hpos : (0:ℚ) < (vb.length : ℚ) := by
        have : 0 < vb.length := Nat.pos_of_ne_zero hlen
        exact_mod_cast this
      rw [div_le_iff₀ hpos]
      linarith
  rw [hMs]
  linarith

/-- The concrete honest node of the C4 witness: one timely proof for
challenge height `100` under `envC4`. -/
def mnC4good : CMasterNode := ⟨1, 0, 0, false, [⟨⟨1, 100, 0, 0⟩, 1⟩]⟩

theorem C4_sentinel_greater_amended_witness :
    GetScore envC4 mnC4good < GetScore envC4 mnC4mis :=
  C4_sentinel_greater_amended envC4 mnC4mis mnC4good (by decide) (by decide)
    (by decide)

theorem getMasterNode_of_regFind (env : ChainEnv) (reg : Registry) (o : OutPoint)
    (mn : CMasterNode) (h : regFind reg o = some mn) :
    getMasterNode env reg o = (some mn, reg) := by
  unfold getMasterNode
  rw [h]

/-- On a strictly sorted list, `find?` for "greater than `p`" returns the
least element above `p` (this is `std::set::upper_bound`). -/
theorem find?_lt_eq_some_of_least (l : List Nat) (p x : Nat)
    (hsort : List.Pairwise (· < ·) l) (hx : x ∈ l) (hpx : p < x)
    (hmin : ∀ y ∈ l, p < y → x ≤ y) :
    l.find? (fun y => decide (p < y)) = some x := by
  induction l with
  | nil => cases hx
  | cons a as ih =>
    rcases List.pairwise_cons.mp hsort with ⟨ha, has⟩
    by_cases hpa : p < a
    · have hxa : x = a := by
        rcases List.mem_cons.mp hx with rfl | hxm
        · rfl
        · have h1 := hmin a (List.mem_cons_self a as) hpa
          have h2 := ha x hxm
          omega
      rw [List.find?_cons_of_pos _ (by simpa using hpa), hxa]
    · have hxm : x ∈ as := by
        rcases List.mem_cons.mp hx with rfl | h
        · exact absurd hpx hpa
        · exact h
      rw [List.find?_cons_of_neg _ (by simpa using hpa)]
      exact ih has hxm (fun y hy hpy => hmin y (List.mem_cons_of_mem a hy) hpy)

/-- The outpoint of the record chosen by `MN_NextPayee`. -/
def payeeOutpoint (r : Option CMasterNode × Registry) : Option OutPoint :=
  r.1.map (fun mn => mn.outpoint)

/-- C9 amended: full characterization of `MN_NextPayee` over a sorted roster
whose members are registered under their own outpoint.  With a null previous
payee: below the start threshold (150) no payee, otherwise the first (least)
roster element.  With a previous payee `p`: below the stop threshold (100) no
payee; otherwise the least roster element strictly greater than `p`, and the
first roster element exactly when no element exceeds `p` (in particular `p`
being the maximum; NOT merely absent from the roster). -/
theorem C9_next_payee_characterization (env : ChainEnv) (reg : Registry)
    (elected : List OutPoint) (p : OutPoint)
    (hsort : List.Pairwise (· < ·) elected)
    (hreg : ∀ o ∈ elected, (regFind reg o).map (fun mn => mn.outpoint) = some o) :
    (elected.length < g_MasternodesStartPayments →
        MN_NextPayee env reg elected none = (none, reg)) ∧
    (g_MasternodesStartPayments ≤ elected.length →
        payeeOutpoint (MN_NextPayee env reg elected none) = elected.head? ∧
        (MN_NextPayee env reg elected none).2 = reg) ∧
    (elected.length < g_MasternodesStopPayments →
        MN_NextPayee env reg elected (some p) = (none, reg)) ∧
    (g_MasternodesStopPayments ≤ elected.length →
        ((∀ x ∈ elected, x ≤ p) →
            payeeOutpoint (MN_NextPayee env reg elected (some p)) = elected.head?) ∧
        (∀ x ∈ elected, p < x → (∀ y ∈ elected, p < y → x ≤ y) →
            payeeOutpoint (MN_NextPayee env reg elected (some p)) = some x) ∧
        (MN_NextPayee env reg elected (some p)).2 = reg) := by
  have hhead : ∀ (hne : elected ≠ []),
      ∃ h0 mn, elected.head? = some h0 ∧ regFind reg h0 = some mn ∧ mn.outpoint = h0 := by
    intro hne
    rcases List.exists_cons_of_ne_nil hne with ⟨h0, t, he⟩
    have hmem : h0 ∈ elected := by rw [he]; exact List.mem_cons_self _ _
    have hr := hreg h0 hmem
    rcases hfind : regFind reg h0 with _ | mn
    · rw [hfind] at hr; simp at hr
    · rw [hfind] at hr
      exact ⟨h0, mn, by rw [he]; rfl, hfind, by simpa using hr⟩
  refine ⟨?_, ?_, ?_, ?_⟩
  · intro hlt
    simp [MN_NextPayee, hlt]
  · intro hge
    have hne : elected ≠ [] := by
      intro he
      rw [he] at hge
      simp [g_MasternodesStartPayments] at hge
    rcases hhead hne with ⟨h0, mn, hh, hfind, hout⟩
    have hnl : ¬ (elected.length < g_MasternodesStartPayments) := by omega
    simp only [MN_NextPayee, if_neg hnl, hh, getMasterNode_of_regFind env reg h0 mn hfind]
    exact ⟨by simp [payeeOutpoint, hout, hh], by trivial⟩
  · intro hlt
    simp [MN_NextPayee, hlt]
  · intro hge
    have hne : elected ≠ [] := by
      intro he
      rw [he] at hge
      simp [g_MasternodesStopPayments] at hge
    have hnl : ¬ (elected.length < g_MasternodesStopPayments) := by omega
    refine ⟨?_, ?_, ?_⟩
    · intro hall
      have hfn : elected.find? (fun y => decide (p < y)) = none := by
        apply List.find?_eq_none.mpr
        intro x hx
        simpa using not_lt.mpr (hall x hx)
      rcases hhead hne with ⟨h0, mn, hh, hfind, hout⟩
      simp only [MN_NextPayee, if_neg hnl, hfn, hh,
        getMasterNode_of_regFind env reg h0 mn hfind]
      simp [payeeOutpoint, hout, hh]
    · intro x hx hpx hmin
      have hfn := find?_lt_eq_some_of_least elected p x hsort hx hpx hmin
      have hr := hreg x hx
      rcases hfind : regFind reg x with _ | mn
      · rw [hfind] at hr; simp at hr
      · rw [hfind] at hr
        have hout : mn.outpoint = x := by simpa using hr
        simp only [MN_NextPayee, if_neg hnl, hfn,
          getMasterNode_of_regFind env reg x mn hfind]
        simp [payeeOutpoint, hout]
    · rcases hfn : elected.find? (fun y => decide (p < y)) with _ | y
      · rcases hhead hne with ⟨h0, mn, hh, hfind, hout⟩
        simp [MN_NextPayee, if_neg hnl, hfn, hh,
          getMasterNode_of_regFind env reg h0 mn hfind]
      · have hy : y ∈ elected := List.mem_of_find?_eq_some hfn
        have hr := hreg y hy
        rcases hfind : regFind reg y with _ | mn
        · rw [hfind] at hr; simp at hr
        · simp [MN_NextPayee, if_neg hnl, hfn,
            getMasterNode_of_regFind env reg y mn hfind]

/-- Roster for the C9 counterexample: `{0, 2, 3, …, 100}` (100 elements,
meeting the continue threshold), with `1` absent and below the maximum. -/
def electedC9 : List OutPoint := 0 :: (List.range 99).map (fun k => k + 2)

/-- Registry for the C9 counterexample: element `2` is registered. -/
def regC9 : Registry := [(2, ⟨2, 0, 0, false, []⟩)]

/-- C9 counterexample: with previous payee `1` absent from the roster but
below its maximum, `MN_NextPayee` returns the smallest element greater than
`1` (namely `2`), NOT the first roster element (`0`) — so the claim's
"wrapping … when the previous payee is … no longer present in the roster"
is false as stated. -/
theorem C9_no_wrap_on_absent_prev_counterexample :
    (1 : OutPoint) ∉ electedC9 ∧
    (100 : OutPoint) ∈ electedC9 ∧ (1 : OutPoint) < 100 ∧
    g_MasternodesStopPayments ≤ electedC9.length ∧
    payeeOutpoint (MN_NextPayee wEnv regC9 electedC9 (some 1)) = some 2 ∧
    electedC9.head? = some 0 ∧ (2 : OutPoint) ≠ 0 := by decide

/-- Roster and registry for the C9 witness: `{0, …, 149}`, all registered. -/
def electedC9w : List OutPoint := List.range 150

def regC9w : Registry := (List.range 150).map (fun k => (k, ⟨k, 0, 0, false, []⟩))

set_option maxRecDepth 4000 in
theorem C9_next_payee_characterization_witness :
    (electedC9w.length < g_MasternodesStartPayments →
        MN_NextPayee wEnv regC9w electedC9w none = (none, regC9w)) ∧
    (g_MasternodesStartPayments ≤ electedC9w.length →
        payeeOutpoint (MN_NextPayee wEnv regC9w electedC9w none) = electedC9w.head? ∧
        (MN_NextPayee wEnv regC9w electedC9w none).2 = regC9w) ∧
    (electedC9w.length < g_MasternodesStopPayments →
        MN_NextPayee wEnv regC9w electedC9w (some 149) = (none, regC9w)) ∧
    (g_MasternodesStopPayments ≤ electedC9w.length →
        ((∀ x ∈ electedC9w, x ≤ 149) →
            payeeOutpoint (MN_NextPayee wEnv regC9w electedC9w (some 149)) =
              electedC9w.head?) ∧
        (∀ x ∈ electedC9w, 149 < x → (∀ y ∈ electedC9w, 149 < y → x ≤ y) →
            payeeOutpoint (MN_NextPayee wEnv regC9w electedC9w (some 149)) = some x) ∧
        (MN_NextPayee wEnv regC9w electedC9w (some 149)).2 = regC9w) :=
  C9_next_payee_characterization wEnv regC9w electedC9w 149 (by decide) (by decide)


theorem AddExistenceMsg_keyid (env : ChainEnv) (mn : CMasterNode)
    (m : CMasterNodeExistenceMsg) :
    (AddExistenceMsg env mn m).2.keyid = mn.keyid := by
  unfold AddExistenceMsg
  split_ifs <;> rfl

/-- Re-adding the same message right after `AddExistenceMsg` processed it:
the second call penalizes no more than the first, never accepts (no relay),
and leaves the misbehaving flag exactly as the first call left it. -/
theorem AddExistenceMsg_twice (env : ChainEnv) (mn : CMasterNode)
    (m : CMasterNodeExistenceMsg) :
    penaltyOf (AddExistenceMsg env (AddExistenceMsg env mn m).2 m).1 ≤
      penaltyOf (AddExistenceMsg env mn m).1 ∧
    0 ≤ (AddExistenceMsg env (AddExistenceMsg env mn m).2 m).1 ∧
    (AddExistenceMsg env (AddExistenceMsg env mn m).2 m).2.misbehaving =
      (AddExistenceMsg env mn m).2.misbehaving := by
  by_cases hdup : mn.existenceMsgs.any (fun r => r.msg == m)
  · simp [AddExistenceMsg, hdup, penaltyOf]
  · have hnotin : ∀ r ∈ mn.existenceMsgs, ¬ (r.msg = m) := by
      intro r hr he
      exact hdup (List.any_eq_true.mpr ⟨r, hr, by simp [he]⟩)
    by_cases hcap : 100 / 5 * 10 < (Cleanup env.nBestHeight mn.existenceMsgs).length
    · have h1 : AddExistenceMsg env mn m =
          (20, { mn with
                   existenceMsgs := Cleanup env.nBestHeight mn.existenceMsgs,
                   misbehaving := true }) := by
        simp [AddExistenceMsg, hdup, hcap]
      have hany2 : (Cleanup env.nBestHeight mn.existenceMsgs).any
          (fun r => r.msg == m) = false := by
        rw [← Bool.not_eq_true, List.any_eq_true]
        rintro ⟨r, hr, hc⟩
        exact hnotin r (mem_of_mem_Cleanup env.nBestHeight mn.existenceMsgs r hr)
          (by simpa using hc)
      have hcap2 : 100 / 5 * 10 <
          (Cleanup env.nBestHeight (Cleanup env.nBestHeight mn.existenceMsgs)).length := by
        rw [length_Cleanup]
        exact hcap
      rw [h1]
      simp [AddExistenceMsg, hany2, hcap2, penaltyOf]
    · have h1 : AddExistenceMsg env mn m =
          (-1, { mn with existenceMsgs :=
                  Cleanup env.nBestHeight mn.existenceMsgs ++ [⟨m, env.now⟩] }) := by
        simp [AddExistenceMsg, hdup, hcap]
      have hany2 : ((Cleanup env.nBestHeight mn.existenceMsgs ++
          [(⟨m, env.now⟩ : CReceivedExistenceMsg)]).any (fun r => r.msg == m)) = true := by
        simp
      rw [h1]
      simp [AddExistenceMsg, hany2, penaltyOf]

theorem getMasterNode_none_eq (env : ChainEnv) (reg : Registry) (o : OutPoint)
    (reg' : Registry) (h : getMasterNode env reg o = (none, reg')) : reg' = reg := by
  unfold getMasterNode at h
  rcases hf : regFind reg o with _ | v <;> rw [hf] at h
  · rcases hv : env.validate o with _ | ⟨k, a⟩ <;> rw [hv] at h
    · simp only [Prod.mk.injEq] at h
      exact h.2.symm
    · simp at h
  · simp at h

theorem getMasterNode_some_regFind (env : ChainEnv) (reg : Registry) (o : OutPoint)
    (mn : CMasterNode) (reg' : Registry)
    (h : getMasterNode env reg o = (some mn, reg')) : regFind reg' o = some mn := by
  unfold getMasterNode at h
  rcases hf : regFind reg o with _ | v <;> rw [hf] at h
  · rcases hv : env.validate o with _ | ⟨k, a⟩ <;> rw [hv] at h
    · simp at h
    · simp only [Prod.mk.injEq, Option.some.injEq] at h
      rw [← h.2, ← h.1]
      exact regFind_regSet_self _ _ _
  · simp only [Prod.mk.injEq, Option.some.injEq] at h
    rw [← h.2, ← h.1]
    exact hf

/-- C7: ingesting the identical proof message a second time (the model's
structural message equality is the C++ identity hash) never changes any
record's misbehaving flag relative to the first ingestion's outcome, never
penalizes beyond the first ingestion, and is never accepted for relay. -/
theorem C7_duplicate_ingest_idempotent (env : ChainEnv) (reg : Registry)
    (m : CMasterNodeExistenceMsg) :
    penaltyOf (MN_ProcessExistenceMsg_Impl env
        (MN_ProcessExistenceMsg_Impl env reg m).2 m).1 ≤
      penaltyOf (MN_ProcessExistenceMsg_Impl env reg m).1 ∧
    relayedOf (MN_ProcessExistenceMsg_Impl env
        (MN_ProcessExistenceMsg_Impl env reg m).2 m).1 = false ∧
    (∀ o, (regFind (MN_ProcessExistenceMsg_Impl env
              (MN_ProcessExistenceMsg_Impl env reg m).2 m).2 o).map
            (fun mn => mn.misbehaving) =
          (regFind (MN_ProcessExistenceMsg_Impl env reg m).2 o).map
            (fun mn => mn.misbehaving)) := by
  by_cases h1 : m.nBlock < env.nBestHeight - 100
  · simp [MN_ProcessExistenceMsg_Impl, h1, penaltyOf, relayedOf]
  · by_cases h2 : m.nBlock < env.nBestHeight - 50
    · simp [MN_ProcessExistenceMsg_Impl, h1, h2, penaltyOf, relayedOf]
    · rcases hg : getMasterNode env reg m.outpoint with ⟨mo, reg'⟩
      cases mo with
      | none =>
        have hreg' : reg' = reg := getMasterNode_none_eq env reg m.outpoint reg' hg
        subst hreg'
        simp [MN_ProcessExistenceMsg_Impl, h1, h2, hg, penaltyOf, relayedOf]
      | some pmn =>
        have hfound : regFind reg' m.outpoint = some pmn :=
          getMasterNode_some_regFind env reg m.outpoint pmn reg' hg
        by_cases hs : env.recoverId (env.sigHash m.outpoint m.nBlock m.hashBlock)
            m.signature ≠ pmn.keyid
        · have hg2 : getMasterNode env reg' m.outpoint = (some pmn, reg') :=
            getMasterNode_of_regFind env reg' m.outpoint pmn hfound
          simp [MN_ProcessExistenceMsg_Impl, h1, h2, hg, hg2, hs, penaltyOf, relayedOf]
        · push_neg at hs
          have hfirst : MN_ProcessExistenceMsg_Impl env reg m =
              ((AddExistenceMsg env pmn m).1,
               regSet reg' m.outpoint (AddExistenceMsg env pmn m).2) := by
            simp [MN_ProcessExistenceMsg_Impl, h1, h2, hg, hs]
          have hr1 : regFind (regSet reg' m.outpoint (AddExistenceMsg env pmn m).2)
              m.outpoint = some (AddExistenceMsg env pmn m).2 :=
            regFind_regSet_self _ _ _
          have hg2 : getMasterNode env (regSet reg' m.outpoint (AddExistenceMsg env pmn m).2)
              m.outpoint =
              (some (AddExistenceMsg env pmn m).2,
               regSet reg' m.outpoint (AddExistenceMsg env pmn m).2) :=
            getMasterNode_of_regFind _ _ _ _ hr1
          have hs2 : env.recoverId (env.sigHash m.outpoint m.nBlock m.hashBlock)
              m.signature = (AddExistenceMsg env pmn m).2.keyid := by
            rw [AddExistenceMsg_keyid]
            exact hs
          have hsecond : MN_ProcessExistenceMsg_Impl env
              (regSet reg' m.outpoint (AddExistenceMsg env pmn m).2) m =
              ((AddExistenceMsg env (AddExistenceMsg env pmn m).2 m).1,
               regSet (regSet reg' m.outpoint (AddExistenceMsg env pmn m).2) m.outpoint
                 (AddExistenceMsg env (AddExistenceMsg env pmn m).2 m).2) := by
            simp [MN_ProcessExistenceMsg_Impl, h1, h2, hg2, hs2]
          rcases AddExistenceMsg_twice env pmn m with ⟨hp, hz, hmb⟩
          rw [hfirst, hsecond]
          refine ⟨hp, ?_, ?_⟩
          · simp only [relayedOf, decide_eq_false_iff_not, not_lt]
            exact hz
          · intro o
            by_cases ho : o = m.outpoint
            · subst ho
              rw [regFind_regSet_self, regFind_regSet_self]
              simp [hmb]
            · rw [regFind_regSet_ne _ _ _ _ ho]

theorem pairwise_sortOutpoints_aux (l : List OutPoint) :
    ∀ acc, List.Pairwise (· < ·) acc →
      List.Pairwise (· < ·) (l.foldl insertSorted acc) := by
  induction l with
  | nil => intro acc h; simpa using h
  | cons o l ih =>
    intro acc h
    simpa [List.foldl_cons] using ih (insertSorted acc o) (pairwise_insertSorted acc o h)

theorem pairwise_electionWinners (window : List (List OutPoint)) (period : Nat) :
    List.Pairwise (· < ·) (electionWinners window period) := by
  unfold electionWinners sortOutpoints
  exact List.Pairwise.filter _ (pairwise_sortOutpoints_aux _ [] (by simp))

/-- Characterization of the de-elect phase of `MN_OnConnectBlock`
(`MN_Elect(o, 0)` over a winner list): the registry is untouched, the elected
set loses exactly the processed members, and the recorded flips are exactly
the winners that were elected (each recorded once). -/
theorem applyVotes_false_spec (env : ChainEnv) :
    ∀ (os : List OutPoint) (reg : Registry) (elected : List OutPoint),
    List.Pairwise (· < ·) elected →
    (applyVotes env false reg elected os).1 = reg ∧
    List.Pairwise (· < ·) (applyVotes env false reg elected os).2.1 ∧
    (∀ x, x ∈ (applyVotes env false reg elected os).2.1 ↔ x ∈ elected ∧ x ∉ os) ∧
    (∀ x, x ∈ (applyVotes env false reg elected os).2.2 ↔ x ∈ elected ∧ x ∈ os) ∧
    (applyVotes env false reg elected os).2.2.Nodup := by
  intro os
  induction os with
  | nil =>
    intro reg elected hsort
    simp [applyVotes, hsort]
  | cons o os ih =>
    intro reg elected hsort
    have hnodupE : elected.Nodup := List.Pairwise.imp (fun h => Nat.ne_of_lt h) hsort
    by_cases ho : o ∈ elected
    · have hstep : MN_Elect env reg elected o false = (true, reg, elected.erase o) := by
        simp [MN_Elect, ho]
      have hsort' : List.Pairwise (· < ·) (elected.erase o) :=
        List.Pairwise.sublist (List.erase_sublist _ _) hsort
      rcases ih reg (elected.erase o) hsort' with ⟨h1, h2, h3, h4, h5⟩
      have happ : applyVotes env false reg elected (o :: os) =
          ((applyVotes env false reg (elected.erase o) os).1,
           (applyVotes env false reg (elected.erase o) os).2.1,
           o :: (applyVotes env false reg (elected.erase o) os).2.2) := by
        simp [applyVotes, hstep]
      rw [happ]
      refine ⟨h1, h2, ?_, ?_, ?_⟩
      · intro x
        rw [h3 x]
        constructor
        · rintro ⟨hxe, hxos⟩
          have hx := (List.Nodup.mem_erase_iff hnodupE).mp hxe
          refine ⟨hx.2, ?_⟩
          intro hc
          rcases List.mem_cons.mp hc with rfl | hc
          · exact hx.1 rfl
          · exact hxos hc
        · rintro ⟨hxe, hxcons⟩
          have hxo : x ≠ o := fun he => hxcons (he ▸ List.mem_cons_self o os)
          exact ⟨(List.Nodup.mem_erase_iff hnodupE).mpr ⟨hxo, hxe⟩,
            fun hx => hxcons (List.mem_cons_of_mem _ hx)⟩
      · intro x
        simp only [List.mem_cons, h4 x]
        constructor
        · rintro (rfl | ⟨hxe, hxos⟩)
          · exact ⟨ho, Or.inl rfl⟩
          · exact ⟨List.mem_of_mem_erase hxe, Or.inr hxos⟩
        · rintro ⟨hxe, hxc⟩
          rcases hxc with rfl | hxos
          · exact Or.inl rfl
          · by_cases hxo : x = o
            · exact Or.inl hxo
            · exact Or.inr ⟨(List.Nodup.mem_erase_iff hnodupE).mpr ⟨hxo, hxe⟩, hxos⟩
      · refine List.nodup_cons.mpr ⟨?_, h5⟩
        intro hmem
        rcases (h4 o).mp hmem with ⟨hoe, _⟩
        exact ((List.Nodup.mem_erase_iff hnodupE).mp hoe).1 rfl
    · have hstep : MN_Elect env reg elected o false = (false, reg, elected) := by
        simp [MN_Elect, ho]
      rcases ih reg elected hsort with ⟨h1, h2, h3, h4, h5⟩
      have happ : applyVotes env false reg elected (o :: os) =
          ((applyVotes env false reg elected os).1,
           (applyVotes env false reg elected os).2.1,
           (applyVotes env false reg elected os).2.2) := by
        simp [applyVotes, hstep]
      rw [happ]
      refine ⟨h1, h2, ?_, ?_, h5⟩
      · intro x
        rw [h3 x]
        constructor
        · rintro ⟨hxe, hxos⟩
          refine ⟨hxe, ?_⟩
          intro hc
          rcases List.mem_cons.mp hc with rfl | hc
          · exact ho hxe
          · exact hxos hc
        · rintro ⟨hxe, hxcons⟩
          exact ⟨hxe, fun hx => hxcons (List.mem_cons_of_mem _ hx)⟩
      · intro x
        rw [h4 x]
        constructor
        · rintro ⟨hxe, hxos⟩
          exact ⟨hxe, List.mem_cons_of_mem _ hxos⟩
        · rintro ⟨hxe, hxc⟩
          rcases List.mem_cons.mp hxc with rfl | hx
          · exact absurd hxe ho
          · exact ⟨hxe, hx⟩

/-- Characterization of the elect phase of `MN_OnConnectBlock`
(`MN_Elect(o, 1)` over a winner list): existing registry bindings survive,
resolvability is unchanged, the elected set gains exactly the resolvable
winners, and the recorded flips are exactly the resolvable winners that were
not yet elected. -/
theorem applyVotes_true_spec (env : ChainEnv) :
    ∀ (os : List OutPoint) (reg : Registry) (elected : List OutPoint),
    List.Pairwise (· < ·) elected →
    (∀ o' v, regFind reg o' = some v →
        regFind (applyVotes env true reg elected os).1 o' = some v) ∧
    (∀ o', canResolve env (applyVotes env true reg elected os).1 o' =
        canResolve env reg o') ∧
    List.Pairwise (· < ·) (applyVotes env true reg elected os).2.1 ∧
    (∀ x, x ∈ (applyVotes env true reg elected os).2.1 ↔
        x ∈ elected ∨ (x ∈ os ∧ canResolve env reg x = true)) ∧
    (∀ x, x ∈ (applyVotes env true reg elected os).2.2 ↔
        x ∉ elected ∧ x ∈ os ∧ canResolve env reg x = true) ∧
    (applyVotes env true reg elected os).2.2.Nodup := by
  intro os
  induction os with
  | nil =>
    intro reg elected hsort
    refine ⟨fun o' v h => h, fun o' => rfl, hsort, ?_, ?_, List.nodup_nil⟩
    · intro x; simp [applyVotes]
    · intro x; simp [applyVotes]
  | cons o os ih =>
    intro reg elected hsort
    rcases hgm : (getMasterNode env reg o).1 with _ | mn
    · -- unresolvable: MN_Elect fails, state unchanged
      have hpair : getMasterNode env reg o = (none, (getMasterNode env reg o).2) := by
        rw [← hgm]
      have hregeq : (getMasterNode env reg o).2 = reg :=
        getMasterNode_none_eq env reg o _ hpair
      have hcr : canResolve env reg o = false := by
        rw [← getMasterNode_isSome_iff, hgm]
        rfl
      have hstep : MN_Elect env reg elected o true = (false, reg, elected) := by
        simp [MN_Elect, hgm, hregeq]
      rcases ih reg elected hsort with ⟨h1, h2, h3, h4, h5, h6⟩
      have happ : applyVotes env true reg elected (o :: os) =
          ((applyVotes env true reg elected os).1,
           (applyVotes env true reg elected os).2.1,
           (applyVotes env true reg elected os).2.2) := by
        simp [applyVotes, hstep]
      rw [happ]
      refine ⟨h1, h2, h3, ?_, ?_, h6⟩
      · intro x
        rw [h4 x]
        simp only [List.mem_cons]
        constructor
        · rintro (hxe | ⟨hxos, hcrx⟩)
          · exact Or.inl hxe
          · exact Or.inr ⟨Or.inr hxos, hcrx⟩
        · rintro (hxe | ⟨(rfl | hxos), hcrx⟩)
          · exact Or.inl hxe
          · rw [hcrx] at hcr; exact absurd hcr (by simp)
          · exact Or.inr ⟨hxos, hcrx⟩
      · intro x
        rw [h5 x]
        simp only [List.mem_cons]
        constructor
        · rintro ⟨hxe, hxos, hcrx⟩
          exact ⟨hxe, Or.inr hxos, hcrx⟩
        · rintro ⟨hxe, (rfl | hxos), hcrx⟩
          · rw [hcrx] at hcr; exact absurd hcr (by simp)
          · exact ⟨hxe, hxos, hcrx⟩
    · -- resolvable
      have hcr : canResolve env reg o = true := by
        rw [← getMasterNode_isSome_iff, hgm]
        rfl
      have hmono : ∀ o' v, regFind reg o' = some v →
          regFind (getMasterNode env reg o).2 o' = some v :=
        fun o' v h => regFind_getMasterNode_mono env reg o o' v h
      have hpres : ∀ o', canResolve env (getMasterNode env reg o).2 o' =
          canResolve env reg o' :=
        fun o' => canResolve_getMasterNode env reg o o'
      by_cases ho : o ∈ elected
      · have hstep : MN_Elect env reg elected o true =
            (false, (getMasterNode env reg o).2, elected) := by
          simp [MN_Elect, hgm, ho]
        rcases ih (getMasterNode env reg o).2 elected hsort with ⟨h1, h2, h3, h4, h5, h6⟩
        have happ : applyVotes env true reg elected (o :: os) =
            ((applyVotes env true (getMasterNode env reg o).2 elected os).1,
             (applyVotes env true (getMasterNode env reg o).2 elected os).2.1,
             (applyVotes env true (getMasterNode env reg o).2 elected os).2.2) := by
          simp [applyVotes, hstep]
        rw [happ]
        refine ⟨fun o' v h => h1 o' v (hmono o' v h),
          fun o' => (h2 o').trans (hpres o'), h3, ?_, ?_, h6⟩
        · intro x
          rw [h4 x, hpres x]
          simp only [List.mem_cons]
          constructor
          · rintro (hxe | ⟨hxos, hcrx⟩)
            · exact Or.inl hxe
            · exact Or.inr ⟨Or.inr hxos, hcrx⟩
          · rintro (hxe | ⟨(rfl | hxos), hcrx⟩)
            · exact Or.inl hxe
            · exact Or.inl ho
            · exact Or.inr ⟨hxos, hcrx⟩
        · intro x
          rw [h5 x, hpres x]
          simp only [List.mem_cons]
          constructor
          · rintro ⟨hxe, hxos, hcrx⟩
            exact ⟨hxe, Or.inr hxos, hcrx⟩
          · rintro ⟨hxe, (rfl | hxos), hcrx⟩
            · exact absurd ho hxe
            · exact ⟨hxe, hxos, hcrx⟩
      · have hstep : MN_Elect env reg elected o true =
            (true, (getMasterNode env reg o).2, insertSorted elected o) := by
          simp [MN_Elect, hgm, ho]
        have hsort' : List.Pairwise (· < ·) (insertSorted elected o) :=
          pairwise_insertSorted elected o hsort
        rcases ih (getMasterNode env reg o).2 (insertSorted elected o) hsort' with
          ⟨h1, h2, h3, h4, h5, h6⟩
        have happ : applyVotes env true reg elected (o :: os) =
            ((applyVotes env true (getMasterNode env reg o).2 (insertSorted elected o) os).1,
             (applyVotes env true (getMasterNode env reg o).2 (insertSorted elected o) os).2.1,
             o :: (applyVotes env true (getMasterNode env reg o).2
                    (insertSorted elected o) os).2.2) := by
          simp [applyVotes, hstep]
        rw [happ]
        refine ⟨fun o' v h => h1 o' v (hmono o' v h),
          fun o' => (h2 o').trans (hpres o'), h3, ?_, ?_, ?_⟩
        · intro x
          rw [h4 x, hpres x, mem_insertSorted]
          simp only [List.mem_cons]
          constructor
          · rintro ((hxe | rfl) | ⟨hxos, hcrx⟩)
            · exact Or.inl hxe
            · exact Or.inr ⟨Or.inl rfl, hcr⟩
            · exact Or.inr ⟨Or.inr hxos, hcrx⟩
          · rintro (hxe | ⟨(rfl | hxos), hcrx⟩)
            · exact Or.inl (Or.inl hxe)
            · exact Or.inl (Or.inr rfl)
            · exact Or.inr ⟨hxos, hcrx⟩
        · intro x
          simp only [List.mem_cons]
          rw [h5 x, mem_insertSorted, hpres x]
          constructor
          · rintro (rfl | ⟨hxe, hxos, hcrx⟩)
            · exact ⟨ho, Or.inl rfl, hcr⟩
            · exact ⟨fun hc => hxe (Or.inl hc), Or.inr hxos, hcrx⟩
          · rintro ⟨hxe, (rfl | hxos), hcrx⟩
            · exact Or.inl rfl
            · by_cases hxo : x = o
              · exact Or.inl hxo
              · exact Or.inr ⟨fun hc => (hc.elim hxe hxo), hxos, hcrx⟩
        · refine List.nodup_cons.mpr ⟨?_, h6⟩
          intro hmem
          rcases (h5 o).mp hmem with ⟨hoe, _⟩
          exact hoe ((mem_insertSorted elected o o).mpr (Or.inr rfl))

/-- Characterization of the disconnect undo for direction-`0` flips
(re-elect each recorded outpoint): when the recorded outpoints are distinct,
currently un-elected and resolvable, every `assert(MN_Elect(o, 1))` succeeds
and the elected set gains exactly the recorded outpoints. -/
theorem undoVotes_true_spec (env : ChainEnv) :
    ∀ (os : List OutPoint) (reg : Registry) (elected : List OutPoint),
    List.Pairwise (· < ·) elected → os.Nodup →
    (∀ o ∈ os, o ∉ elected ∧ canResolve env reg o = true) →
    (undoVotes env true reg elected os).1 = true ∧
    (∀ o', canResolve env (undoVotes env true reg elected os).2.1 o' =
        canResolve env reg o') ∧
    List.Pairwise (· < ·) (undoVotes env true reg elected os).2.2 ∧
    (∀ x, x ∈ (undoVotes env true reg elected os).2.2 ↔ x ∈ elected ∨ x ∈ os) := by
  intro os
  induction os with
  | nil =>
    intro reg elected hsort _ _
    refine ⟨rfl, fun o' => rfl, hsort, ?_⟩
    intro x
    simp [undoVotes]
  | cons o os ih =>
    intro reg elected hsort hnd hos
    rcases List.nodup_cons.mp hnd with ⟨hono, hnd'⟩
    rcases hos o (List.mem_cons_self o os) with ⟨hoe, hocr⟩
    rcases hgm : (getMasterNode env reg o).1 with _ | mn
    · exfalso
      have := getMasterNode_isSome_iff env reg o
      rw [hgm] at this
      rw [← this] at hocr
      simp at hocr
    · have hstep : MN_Elect env reg elected o true =
          (true, (getMasterNode env reg o).2, insertSorted elected o) := by
        simp [MN_Elect, hgm, hoe]
      have hsort' : List.Pairwise (· < ·) (insertSorted elected o) :=
        pairwise_insertSorted elected o hsort
      have hpres : ∀ o', canResolve env (getMasterNode env reg o).2 o' =
          canResolve env reg o' :=
        fun o' => canResolve_getMasterNode env reg o o'
      have hos' : ∀ o' ∈ os, o' ∉ insertSorted elected o ∧
          canResolve env (getMasterNode env reg o).2 o' = true := by
        intro o' ho'
        rcases hos o' (List.mem_cons_of_mem _ ho') with ⟨h1, h2⟩
        refine ⟨?_, by rw [hpres]; exact h2⟩
        intro hc
        rcases (mem_insertSorted elected o o').mp hc with hc | rfl
        · exact h1 hc
        · exact hono ho'
      rcases ih (getMasterNode env reg o).2 (insertSorted elected o) hsort' hnd' hos' with
        ⟨h1, h2, h3, h4⟩
      have happ : undoVotes env true reg elected (o :: os) =
          (true && (undoVotes env true (getMasterNode env reg o).2
              (insertSorted elected o) os).1,
           (undoVotes env true (getMasterNode env reg o).2 (insertSorted elected o) os).2.1,
           (undoVotes env true (getMasterNode env reg o).2 (insertSorted elected o) os).2.2) := by
        simp [undoVotes, hstep]
      rw [happ]
      refine ⟨by rw [h1]; rfl, fun o' => (h2 o').trans (hpres o'), h3, ?_⟩
      intro x
      rw [h4 x, mem_insertSorted]
      simp only [List.mem_cons]
      tauto

/-- Characterization of the disconnect undo for direction-`1` flips
(de-elect each recorded outpoint): when the recorded outpoints are distinct
and currently elected, every `assert(MN_Elect(o, 0))` succeeds, the registry
is untouched and the elected set loses exactly the recorded outpoints. -/
theorem undoVotes_false_spec (env : ChainEnv) :
    ∀ (os : List OutPoint) (reg : Registry) (elected : List OutPoint),
    List.Pairwise (· < ·) elected → os.Nodup →
    (∀ o ∈ os, o ∈ elected) →
    (undoVotes env false reg elected os).1 = true ∧
    (undoVotes env false reg elected os).2.1 = reg ∧
    List.Pairwise (· < ·) (undoVotes env false reg elected os).2.2 ∧
    (∀ x, x ∈ (undoVotes env false reg elected os).2.2 ↔ x ∈ elected ∧ x ∉ os) := by
  intro os
  induction os with
  | nil =>
    intro reg elected hsort _ _
    refine ⟨rfl, rfl, hsort, ?_⟩
    intro x
    simp [undoVotes]
  | cons o os ih =>
    intro reg elected hsort hnd hos
    rcases List.nodup_cons.mp hnd with ⟨hono, hnd'⟩
    have hoe : o ∈ elected := hos o (List.mem_cons_self o os)
    have hnodupE : elected.Nodup := List.Pairwise.imp (fun h => Nat.ne_of_lt h) hsort
    have hstep : MN_Elect env reg elected o false = (true, reg, elected.erase o) := by
      simp [MN_Elect, hoe]
    have hsort' : List.Pairwise (· < ·) (elected.erase o) :=
      List.Pairwise.sublist (List.erase_sublist _ _) hsort
    have hos' : ∀ o' ∈ os, o' ∈ elected.erase o := by
      intro o' ho'
      refine (List.Nodup.mem_erase_iff hnodupE).mpr ⟨?_, hos o' (List.mem_cons_of_mem _ ho')⟩
      intro he
      exact hono (he ▸ ho')
    rcases ih reg (elected.erase o) hsort' hnd' hos' with ⟨h1, h2, h3, h4⟩
    have happ : undoVotes env false reg elected (o :: os) =
        (true && (undoVotes env false reg (elected.erase o) os).1,
         (undoVotes env false reg (elected.erase o) os).2.1,
         (undoVotes env false reg (elected.erase o) os).2.2) := by
      simp [undoVotes, hstep]
    rw [happ]
    refine ⟨by rw [h1]; rfl, h2, h3, ?_⟩
    intro x
    rw [h4 x]
    simp only [List.mem_cons]
    constructor
    · rintro ⟨hxe, hxos⟩
      have hx := (List.Nodup.mem_erase_iff hnodupE).mp hxe
      exact ⟨hx.2, fun hc => hc.elim (fun he => hx.1 he) hxos⟩
    · rintro ⟨hxe, hxc⟩
      push_neg at hxc
      exact ⟨(List.Nodup.mem_erase_iff hnodupE).mpr ⟨hxc.1, hxe⟩, hxc.2⟩

set_option maxHeartbeats 1000000 in
/-- C2 amended: over a sorted elected roster whose members are registered,
and provided no outpoint wins a binding decision in BOTH directions of the
same window, `MN_OnConnectBlock` records a remove-flip only for outpoints that
were elected and an add-flip only for outpoints that were not (i.e. only when
`MN_Elect` actually changed the set), and `MN_OnDisconnectBlock` applied to
the recorded flips has every `assert(MN_Elect(outpoint, !j))` succeed and
restores every outpoint's elected membership to its pre-connect value. -/
theorem C2_connect_disconnect_roundtrip (env : ChainEnv) (period : Nat)
    (reg : Registry) (elected : List OutPoint) (window : List BlockVotes)
    (hsort : List.Pairwise (· < ·) elected)
    (hreg : ∀ o ∈ elected, (regFind reg o).isSome = true)
    (hdisj : ∀ o ∈ electionWinners (window.map (·.votes0)) period,
        o ∉ electionWinners (window.map (·.votes1)) period) :
    (∀ o ∈ (MN_OnConnectBlock env period reg elected window).2.2.1, o ∈ elected) ∧
    (∀ o ∈ (MN_OnConnectBlock env period reg elected window).2.2.2, o ∉ elected) ∧
    (MN_OnDisconnectBlock env (MN_OnConnectBlock env period reg elected window).1
        (MN_OnConnectBlock env period reg elected window).2.1
        (MN_OnConnectBlock env period reg elected window).2.2.1
        (MN_OnConnectBlock env period reg elected window).2.2.2).1 = true ∧
    (∀ x, x ∈ (MN_OnDisconnectBlock env (MN_OnConnectBlock env period reg elected window).1
        (MN_OnConnectBlock env period reg elected window).2.1
        (MN_OnConnectBlock env period reg elected window).2.2.1
        (MN_OnConnectBlock env period reg elected window).2.2.2).2.2 ↔ x ∈ elected) := by
  simp only [MN_OnConnectBlock, MN_OnDisconnectBlock]
  obtain ⟨hA1, hAsort, hAel, hArec, hAnd⟩ :=
    applyVotes_false_spec env (electionWinners (window.map (·.votes0)) period) reg elected hsort
  rw [hA1]
  obtain ⟨hBmono, hBpres, hBsort, hBel, hBrec, hBnd⟩ :=
    applyVotes_true_spec env (electionWinners (window.map (·.votes1)) period) reg
      (applyVotes env false reg elected (electionWinners (window.map (·.votes0)) period)).2.1
      hAsort
  have hcrE : ∀ x ∈ elected, canResolve env reg x = true := by
    intro x hx
    unfold canResolve
    rw [hreg x hx]
    rfl
  have hrec1_nelect : ∀ o ∈ (applyVotes env true reg
      (applyVotes env false reg elected (electionWinners (window.map (·.votes0)) period)).2.1
      (electionWinners (window.map (·.votes1)) period)).2.2, o ∉ elected := by
    intro o hmem hoe
    rcases (hBrec o).mp hmem with ⟨hnel1, hw1m, _⟩
    by_cases how0 : o ∈ electionWinners (window.map (·.votes0)) period
    · exact hdisj o how0 hw1m
    · exact hnel1 ((hAel o).mpr ⟨hoe, how0⟩)
  refine ⟨fun o h => ((hArec o).mp h).1, hrec1_nelect, ?_⟩
  have hu0hyp : ∀ o ∈ (applyVotes env false reg elected
      (electionWinners (window.map (·.votes0)) period)).2.2,
      o ∉ (applyVotes env true reg
        (applyVotes env false reg elected (electionWinners (window.map (·.votes0)) period)).2.1
        (electionWinners (window.map (·.votes1)) period)).2.1 ∧
      canResolve env (applyVotes env true reg
        (applyVotes env false reg elected (electionWinners (window.map (·.votes0)) period)).2.1
        (electionWinners (window.map (·.votes1)) period)).1 o = true := by
    intro o hmem
    rcases (hArec o).mp hmem with ⟨hoe, how0⟩
    constructor
    · intro hoel2
      rcases (hBel o).mp hoel2 with hoel1 | ⟨how1, _⟩
      · exact ((hAel o).mp hoel1).2 how0
      · exact hdisj o how0 how1
    · rw [hBpres o]
      exact hcrE o hoe
  obtain ⟨hU1, hUpres, hUsort, hUel⟩ :=
    undoVotes_true_spec env
      (applyVotes env false reg elected (electionWinners (window.map (·.votes0)) period)).2.2
      (applyVotes env true reg
        (applyVotes env false reg elected (electionWinners (window.map (·.votes0)) period)).2.1
        (electionWinners (window.map (·.votes1)) period)).1
      (applyVotes env true reg
        (applyVotes env false reg elected (electionWinners (window.map (·.votes0)) period)).2.1
        (electionWinners (window.map (·.votes1)) period)).2.1
      hBsort hAnd hu0hyp
  have hu1hyp : ∀ o ∈ (applyVotes env true reg
      (applyVotes env false reg elected (electionWinners (window.map (·.votes0)) period)).2.1
      (electionWinners (window.map (·.votes1)) period)).2.2,
      o ∈ (undoVotes env true
        (applyVotes env true reg
          (applyVotes env false reg elected (electionWinners (window.map (·.votes0)) period)).2.1
          (electionWinners (window.map (·.votes1)) period)).1
        (applyVotes env true reg
          (applyVotes env false reg elected (electionWinners (window.map (·.votes0)) period)).2.1
          (electionWinners (window.map (·.votes1)) period)).2.1
        (applyVotes env false reg elected
          (electionWinners (window.map (·.votes0)) period)).2.2).2.2 := by
    intro o hmem
    rcases (hBrec o).mp hmem with ⟨hnel1, hw1m, hcr⟩
    exact (hUel o).mpr (Or.inl ((hBel o).mpr (Or.inr ⟨hw1m, hcr⟩)))
  obtain ⟨hV1, hV2, hVsort, hVel⟩ :=
    undoVotes_false_spec env
      (applyVotes env true reg
        (applyVotes env false reg elected (electionWinners (window.map (·.votes0)) period)).2.1
        (electionWinners (window.map (·.votes1)) period)).2.2
      _ _ hUsort hBnd hu1hyp
  refine ⟨by rw [hU1, hV1]; rfl, ?_⟩
  intro x
  rw [hVel x, hUel x]
  constructor
  · rintro ⟨hor, hnr1⟩
    rcases hor with hel2 | hrec0
    · rcases (hBel x).mp hel2 with hel1 | ⟨hw1x, hcrx⟩
      · exact ((hAel x).mp hel1).1
      · by_cases hx1 : x ∈ (applyVotes env false reg elected
            (electionWinners (window.map (·.votes0)) period)).2.1
        · exact ((hAel x).mp hx1).1
        · exact absurd ((hBrec x).mpr ⟨hx1, hw1x, hcrx⟩) hnr1
    · exact ((hArec x).mp hrec0).1
  · intro hxe
    refine ⟨?_, fun hr1 => hrec1_nelect x hr1 hxe⟩
    by_cases how0 : x ∈ electionWinners (window.map (·.votes0)) period
    · exact Or.inr ((hArec x).mpr ⟨hxe, how0⟩)
    · exact Or.inl ((hBel x).mpr (Or.inl ((hAel x).mpr ⟨hxe, how0⟩)))

/-- Registry for the C2 scenarios: outpoint `0` is registered. -/
def regC2 : Registry := [(0, ⟨0, 0, 0, false, []⟩)]

/-- Connect step of the C2 counterexample: election period `1`, elected
roster `{0}`, one trailing block voting for outpoint `0` in BOTH directions
(both counts `1 > 1/2 = 0`, so both are binding decisions). -/
def cnC2 : Registry × List OutPoint × List OutPoint × List OutPoint :=
  MN_OnConnectBlock wEnv 1 regC2 [0] [⟨[0], [0]⟩]

/-- Disconnect step of the C2 counterexample, replaying the recorded flips. -/
def dcC2 : Bool × Registry × List OutPoint :=
  MN_OnDisconnectBlock wEnv cnC2.1 cnC2.2.1 cnC2.2.2.1 cnC2.2.2.2

/-- C2 counterexample: when an outpoint wins a supermajority in both
directions of the same window, connect records it in BOTH flip lists (the
de-elect then the re-elect each change state), and disconnect then FAILS:
its first inverse `MN_Elect(0, 1)` finds `0` already elected (the
`assert` is violated) and the final roster drops `0`, which was elected
before the connect — membership is not restored. -/
theorem C2_double_direction_flip_counterexample :
    cnC2.2.2.1 = [0] ∧ cnC2.2.2.2 = [0] ∧
    dcC2.1 = false ∧
    (0 : OutPoint) ∈ ([0] : List OutPoint) ∧ (0 : OutPoint) ∉ dcC2.2.2 := by
  decide

theorem C2_connect_disconnect_roundtrip_witness :
    (∀ o ∈ (MN_OnConnectBlock wEnv 1 regC2 [0] [⟨[0], []⟩]).2.2.1,
        o ∈ ([0] : List OutPoint)) ∧
    (∀ o ∈ (MN_OnConnectBlock wEnv 1 regC2 [0] [⟨[0], []⟩]).2.2.2,
        o ∉ ([0] : List OutPoint)) ∧
    (MN_OnDisconnectBlock wEnv (MN_OnConnectBlock wEnv 1 regC2 [0] [⟨[0], []⟩]).1
        (MN_OnConnectBlock wEnv 1 regC2 [0] [⟨[0], []⟩]).2.1
        (MN_OnConnectBlock wEnv 1 regC2 [0] [⟨[0], []⟩]).2.2.1
        (MN_OnConnectBlock wEnv 1 regC2 [0] [⟨[0], []⟩]).2.2.2).1 = true ∧
    (∀ x, x ∈ (MN_OnDisconnectBlock wEnv (MN_OnConnectBlock wEnv 1 regC2 [0] [⟨[0], []⟩]).1
        (MN_OnConnectBlock wEnv 1 regC2 [0] [⟨[0], []⟩]).2.1
        (MN_OnConnectBlock wEnv 1 regC2 [0] [⟨[0], []⟩]).2.2.1
        (MN_OnConnectBlock wEnv 1 regC2 [0] [⟨[0], []⟩]).2.2.2).2.2 ↔
      x ∈ ([0] : List OutPoint)) :=
  C2_connect_disconnect_roundtrip wEnv 1 regC2 [0] [⟨[0], []⟩]
    (by decide) (by decide) (by decide)
